import Mathlib

/-!
Verification of the os2mo-init reconciliation client against its design
specification. The data model and operations are shallowly embedded from the
repository sources; the reconciler module (os2mo_init/classes.py), whose
source is not present, is modelled from the specification text and from the
expectations of tests/test_classes.py.
-/

namespace OS2moInit

/-- A classification value within a Facet: remote-assigned identifier (uuid),
natural key (user_key), display title (name) and scope tag, as exercised by
tests/test_classes.py. -/
structure Class where
  uuid : String
  user_key : String
  name : String
  scope : String
deriving DecidableEq

/-- A named category of classification values, carrying its identifier,
natural key and ordered list of owned classes. -/
structure Facet where
  uuid : String
  user_key : String
  classes : List Class
deriving DecidableEq

/-- Desired attributes for one class of the desired configuration
(os2mo_init.config.ConfigClass as used by tests/test_classes.py). -/
structure ConfigClass where
  title : String
  scope : String
deriving DecidableEq

/-- Desired configuration of one facet: ordered mapping from class natural key
to desired attributes (a Python dict, modelled as an association list). -/
abbrev ConfigFacet := List (String × ConfigClass)

/-- Desired configuration: ordered mapping from facet natural key to the
facet's desired classes. -/
abbrev Config := List (String × ConfigFacet)

/-- One entry of a GraphQL transport error payload, carrying a message such
as a remote error code. -/
structure GraphQLError where
  message : String
deriving DecidableEq

/-- Transport-level query failure carrying its list of error entries
(gql TransportQueryError). -/
structure TransportQueryError where
  errors : List GraphQLError
deriving DecidableEq

/-- Outcome of running a Python coroutine: it may return a value, let the
original transport error propagate, or itself crash with a new exception
(such as IndexError inside an except-handler). -/
inductive PyResult (α : Type) where
  | ok (value : α)
  | raised (e : TransportQueryError)
  | crashed (msg : String)
deriving DecidableEq

/-- Shallow embedding of os2mo_init.mo.get_root_org. The GraphQL execution is
modelled by its outcome: the root organisation uuid from the query result, or
a transport error. The except-handler of the source reads e.errors[0].message,
which in Python raises IndexError when the error list is empty; it returns
None when the first message is the unconfigured-root code, and re-raises the
original error otherwise. -/
def get_root_org (res : Except TransportQueryError String) : PyResult (Option String) :=
  match res with
  | .ok uuid => .ok (some uuid)
  | .error e =>
    match e.errors with
    | [] => .crashed "IndexError: list index out of range"
    | g :: _ =>
      if g.message == "ErrorCodes.E_ORG_UNCONFIGURED" then .ok none
      else .raised e

namespace Mo

/-- One class dict as returned by the MO service endpoint for a facet; only
the user_key and uuid entries are read by os2mo_init.mo.get_classes. -/
structure ClassItem where
  uuid : String
  user_key : String
deriving DecidableEq

/-- Shallow embedding of os2mo_init.mo.get_classes. The HTTP helper
get_classes_for_facet is modelled by the oracle fetch from a facet uuid to
the class items the service returns for it. The source builds a generator of
one fetch per entry of facets.values(), gathers them (asyncio.gather keeps
the order), zips facets.keys() with the gathered lists positionally and turns
each list into a user_key-to-uuid mapping. -/
def get_classes (facets : List (String × String)) (fetch : String → List ClassItem) :
    List (String × List (String × String)) :=
  let classes_for_facets := (facets.map Prod.snd).map fetch
  let facets_and_classes := List.zip (facets.map Prod.fst) classes_for_facets
  facets_and_classes.map fun p => (p.1, p.2.map fun c => (c.user_key, c.uuid))

end Mo

namespace Classes

/-- Modelled from the spec: os2mo_init/classes.py is not under src (only its
tests import it). Raw class row of the nested facets query result, as in the
fixture of tests/test_classes.py. -/
structure RawClass where
  uuid : String
  user_key : String
  name : String
  scope : String
deriving DecidableEq

/-- Modelled from the spec: the current-state projection of one facet row of
the nested query result: identifier, natural key and ordered child class
list (spec section 4.1). -/
structure RawFacetCurrent where
  uuid : String
  user_key : String
  classes : List RawClass
deriving DecidableEq

/-- Modelled from the spec: one object of the facets query result, wrapping
its current-state projection. -/
structure RawFacetObject where
  current : RawFacetCurrent
deriving DecidableEq

/-- Modelled from the spec: os2mo_init.classes.get_classes, the Fetcher of
spec section 4.1, is missing from src. Given the nested query result it
reconstructs the Facet values with their Class children, preserving the
order in which facets and classes are listed. -/
def get_classes (result : List RawFacetObject) : List Facet :=
  result.map fun o =>
    { uuid := o.current.uuid
      user_key := o.current.user_key
      classes := o.current.classes.map fun c =>
        { uuid := c.uuid, user_key := c.user_key, name := c.name, scope := c.scope } }

/-- Modelled from the spec: the mutation payloads issued by ensure_classes,
matching the payload dicts asserted in tests/test_classes.py: an update
carries the owning facet's identifier, the existing class identifier, the
class natural key and the desired title/scope; a create carries the owning
facet's identifier, the class natural key and the desired title/scope, and
no class identifier (the remote assigns one). -/
inductive Mutation where
  | update (facet_uuid : String) (uuid : String) (user_key : String)
      (name : String) (scope : String)
  | create (facet_uuid : String) (user_key : String) (name : String) (scope : String)
deriving DecidableEq

/-- Whether a mutation call is an update (as opposed to a create). -/
def Mutation.isUpdate : Mutation → Bool
  | .update .. => true
  | .create .. => false

/-- The owning facet identifier carried by a mutation call. -/
def Mutation.facetUuid : Mutation → String
  | .update fu _ _ _ _ => fu
  | .create fu _ _ _ => fu

/-- Remote index lookup of a class by natural key inside one facet. -/
def findClass (cl : List Class) (ck : String) : Option Class :=
  cl.find? fun c => c.user_key == ck

/-- Remote index lookup of a facet by natural key. -/
def findFacet (st : List Facet) (fk : String) : Option Facet :=
  st.find? fun f => f.user_key == fk

/-- Modelled from the spec: the mutations of one desired facet (spec section
4.2 step 2b): for each desired class key in iteration order, an update
reusing the existing identifier when the key exists in the remote index of
the facet, else a create under the facet's identifier. -/
def ensureFacet (f : Facet) (cfg : ConfigFacet) : List Mutation :=
  cfg.map fun p =>
    match findClass f.classes p.1 with
    | some c => Mutation.update f.uuid c.uuid p.1 p.2.title p.2.scope
    | none => Mutation.create f.uuid p.1 p.2.title p.2.scope

/-- Modelled from the spec: os2mo_init.classes.ensure_classes (spec section
4.2) is missing from src. For each desired facet key in iteration order it
locates the remote facet by natural key; when the key has no remote
counterpart it fails fast with a configuration error, issuing no further
mutations (mutations already emitted for earlier facets remain issued);
otherwise it emits the facet's mutations in configuration order. Returns the
ordered mutation calls together with the optional fatal error. -/
def ensure_classes (st : List Facet) : Config → List Mutation × Option String
  | [] => ([], none)
  | (fk, cfg) :: rest =>
    match findFacet st fk with
    | none => ([], some ("Facet " ++ fk ++ " does not exist"))
    | some f =>
      let r := ensure_classes st rest
      (ensureFacet f cfg ++ r.1, r.2)

/-- Modelled from the spec: a resolved remote write (spec section 6), where
the identifier the remote assigns to a created class is made explicit. -/
inductive RMut where
  | upd (facet_uuid : String) (uuid : String) (user_key : String)
      (name : String) (scope : String)
  | cre (facet_uuid : String) (uuid : String) (user_key : String)
      (name : String) (scope : String)
deriving DecidableEq

/-- The facet identifier targeted by a resolved write. -/
def RMut.facetUuid : RMut → String
  | .upd fu _ _ _ _ => fu
  | .cre fu _ _ _ _ => fu

/-- The facet-local part of a resolved write. -/
inductive CMut where
  | upd (uuid : String) (user_key : String) (name : String) (scope : String)
  | cre (uuid : String) (user_key : String) (name : String) (scope : String)
deriving DecidableEq

/-- Drop the facet identifier of a resolved write. -/
def RMut.toCMut : RMut → CMut
  | .upd _ u uk n s => .upd u uk n s
  | .cre _ u uk n s => .cre u uk n s

/-- Reattach a facet identifier to a facet-local write. -/
def CMut.toRMut (fu : String) : CMut → RMut
  | .upd u uk n s => .upd fu u uk n s
  | .cre u uk n s => .cre fu u uk n s

/-- Modelled from the spec: the remote assigns identifiers to created
classes; the assignment is modelled by a generator applied to a running
counter. resolveMuts turns the mutation calls into resolved remote writes
and returns the advanced counter. -/
def resolveMuts (gen : Nat → String) : List Mutation → Nat → List RMut × Nat
  | [], k => ([], k)
  | Mutation.update fu u uk n s :: ms, k =>
    let r := resolveMuts gen ms k
    (RMut.upd fu u uk n s :: r.1, r.2)
  | Mutation.create fu uk n s :: ms, k =>
    let r := resolveMuts gen ms (k + 1)
    (RMut.cre fu (gen k) uk n s :: r.1, r.2)

/-- Modelled from the spec: effect of one facet-local write on a facet's
class list: an update rewrites the class carrying the given identifier in
place (identifier, natural key, title and scope as supplied); a create
appends the new class. -/
def applyCMut (cl : List Class) : CMut → List Class
  | .upd u uk n s => cl.map fun c => if c.uuid == u then ⟨u, uk, n, s⟩ else c
  | .cre u uk n s => cl ++ [⟨u, uk, n, s⟩]

/-- Sequential effect of facet-local writes. -/
def applyCMuts (cl : List Class) (ms : List CMut) : List Class :=
  ms.foldl applyCMut cl

/-- Modelled from the spec: effect of one resolved write on the remote
state: it rewrites the class list of the facet carrying the targeted
identifier and leaves every other facet unchanged. -/
def applyRMut (st : List Facet) (m : RMut) : List Facet :=
  st.map fun f =>
    if f.uuid == m.facetUuid then { f with classes := applyCMut f.classes m.toCMut } else f

/-- Sequential effect of resolved writes on the remote state. -/
def applyRMuts (st : List Facet) (ms : List RMut) : List Facet :=
  ms.foldl applyRMut st

/-- All class identifiers present anywhere in the remote state. -/
def allClassUuids (st : List Facet) : List String :=
  (st.map fun f => f.classes.map Class.uuid).flatten

/-- The facet-local writes of a resolved write sequence that target the
facet with the given identifier. -/
def projectAt (ms : List RMut) (fu : String) : List CMut :=
  (ms.filter fun m => m.facetUuid == fu).map RMut.toCMut

/-- The resolved facet-local writes of one desired facet, computed against
the snapshot class list cl0 exactly as ensureFacet computes its mutations,
with create identifiers resolved from the running counter. -/
def cblock (cl0 : List Class) (gen : Nat → String) : ConfigFacet → Nat → List CMut × Nat
  | [], k => ([], k)
  | (ck, cc) :: rest, k =>
    match findClass cl0 ck with
    | some c =>
      let r := cblock cl0 gen rest k
      (CMut.upd c.uuid ck cc.title cc.scope :: r.1, r.2)
    | none =>
      let r := cblock cl0 gen rest (k + 1)
      (CMut.cre (gen k) ck cc.title cc.scope :: r.1, r.2)

/-- One in-place rewrite: replace the class carrying the target identifier
(first component) by the class built from the natural key and desired
attributes (second and third components). -/
def applyUpd1 (c : Class) (r : String × String × ConfigClass) : Class :=
  if c.uuid == r.1 then ⟨r.1, r.2.1, r.2.2.title, r.2.2.scope⟩ else c

/-- Sequential in-place rewrites of one class. -/
def applyUpds (rs : List (String × String × ConfigClass)) (c : Class) : Class :=
  rs.foldl applyUpd1 c

/-- The rewrites of one desired facet: for each desired class key found in
the snapshot, the target identifier together with the key and desired
attributes. -/
def rewrites (cl0 : List Class) (cfg : ConfigFacet) : List (String × String × ConfigClass) :=
  cfg.filterMap fun p => (findClass cl0 p.1).map fun c => (c.uuid, p.1, p.2)

/-- The classes created for one desired facet: one new class per desired
class key absent from the snapshot, in configuration order, with identifiers
resolved from the running counter. -/
def creations (cl0 : List Class) (gen : Nat → String) : ConfigFacet → Nat → List Class
  | [], _ => []
  | (ck, cc) :: rest, k =>
    match findClass cl0 ck with
    | some _ => creations cl0 gen rest k
    | none => ⟨gen k, ck, cc.title, cc.scope⟩ :: creations cl0 gen rest (k + 1)

/-- The desired configuration flattened to (facet key, class key, desired
attributes) triples in iteration order. -/
def desiredPairs (d : Config) : List (String × String × ConfigClass) :=
  (d.map fun p => p.2.map fun q => (p.1, q.1, q.2)).flatten

/-- What a correctly emitted mutation call looks like for a desired
configuration triple: the facet is located by natural key, and the call is
an update reusing the existing class identifier when the class key exists in
that facet's remote index, else a create under the facet's identifier. -/
def mutationSpec (st : List Facet) (pr : String × String × ConfigClass) (m : Mutation) : Prop :=
  ∃ f, findFacet st pr.1 = some f ∧
    ((∃ c, findClass f.classes pr.2.1 = some c ∧
        m = Mutation.update f.uuid c.uuid pr.2.1 pr.2.2.title pr.2.2.scope) ∨
     (findClass f.classes pr.2.1 = none ∧
        m = Mutation.create f.uuid pr.2.1 pr.2.2.title pr.2.2.scope))

/-- The desired configuration entry recorded for a facet natural key. -/
def desiredFor (d : Config) (fk : String) : Option ConfigFacet :=
  (d.find? fun p => p.1 == fk).map Prod.snd

/-- The desired attributes recorded for a class natural key inside one
facet's desired configuration. -/
def cfgFor (cfg : ConfigFacet) (ck : String) : Option ConfigClass :=
  (cfg.find? fun p => p.1 == ck).map Prod.snd

/-- One full reconciliation run: emit the mutation calls for the desired
configuration against the remote state, resolve the remote-assigned create
identifiers from the running counter, and apply the resolved writes. Returns
the new remote state and the advanced counter. -/
def runState (gen : Nat → String) (st : List Facet) (d : Config) (k : Nat) :
    List Facet × Nat :=
  let r := resolveMuts gen (ensure_classes st d).1 k
  (applyRMuts st r.1, r.2)

end Classes

/-- Remote state fixture mirroring the mocked remote of
tests/test_classes.py: an engagement_type facet owning the class Ansat, and
an empty visibility facet. -/
def stW : List Facet :=
  [⟨"182df2a8-2594-4a3f-9103-a9894d5e0c36", "engagement_type",
    [⟨"8acc5743-044b-4c82-9bb9-4e572d82b524", "Ansat", "Ansat", "TEXT"⟩]⟩,
   ⟨"2cc2dbc5-30dc-4955-8b9a-19fe32b41ce4", "visibility", []⟩]

/-- Desired configuration fixture mirroring tests/test_classes.py: update
Ansat under engagement_type, create Intern under visibility. -/
def dW : Config :=
  [("engagement_type", [("Ansat", ⟨"Updated Title", "Updated Scope"⟩)]),
   ("visibility", [("Intern", ⟨"New Internal Title", "NEW INTERNAL SCOPE"⟩)])]

/-- Remote state fixture with the two facets of the tests and no classes. -/
def stE : List Facet :=
  [⟨"182df2a8-2594-4a3f-9103-a9894d5e0c36", "engagement_type", []⟩,
   ⟨"2cc2dbc5-30dc-4955-8b9a-19fe32b41ce4", "visibility", []⟩]

/-- Desired configuration fixture whose second facet key has no remote
counterpart in stW. -/
def dMissW : Config :=
  [("engagement_type", [("Ansat", ⟨"Ansat", "TEXT"⟩)]),
   ("org_unit_type", [("Afdeling", ⟨"Afdeling", "TEXT"⟩)])]

/-- Identifier generator fixture for remote-assigned create identifiers: a
run of n+1 letters x, so that distinct counters give distinct identifiers. -/
def genW : Nat → String := fun n => String.mk (List.replicate (n + 1) 'x')

namespace Classes

theorem findClass_key {cl : List Class} {ck : String} {c : Class}
    (h : findClass cl ck = some c) : c.user_key = ck := by
  rw [findClass] at h
  have h2 := List.find?_some h
  simpa using h2

theorem findClass_mem {cl : List Class} {ck : String} {c : Class}
    (h : findClass cl ck = some c) : c ∈ cl :=
  List.mem_of_find?_eq_some h

theorem findFacet_key {st : List Facet} {fk : String} {f : Facet}
    (h : findFacet st fk = some f) : f.user_key = fk := by
  rw [findFacet] at h
  have h2 := List.find?_some h
  simpa using h2

theorem findFacet_mem {st : List Facet} {fk : String} {f : Facet}
    (h : findFacet st fk = some f) : f ∈ st :=
  List.mem_of_find?_eq_some h

theorem find?_map_comm {α β : Type} (g : α → β) (p : α → Bool) (q : β → Bool)
    (l : List α) (h : ∀ x ∈ l, q (g x) = p x) :
    (l.map g).find? q = (l.find? p).map g := by
  induction l with
  | nil => rfl
  | cons a l ih =>
    rw [List.map_cons]
    by_cases hpa : p a = true
    · rw [List.find?_cons_of_pos _ (by rw [h a (List.mem_cons_self a l)]; exact hpa),
        List.find?_cons_of_pos _ hpa]
      rfl
    · rw [List.find?_cons_of_neg _ (by rw [h a (List.mem_cons_self a l)]; exact hpa),
        List.find?_cons_of_neg _ hpa]
      exact ih fun x hx => h x (List.mem_cons_of_mem a hx)

theorem findClass_map {cl : List Class} (g : Class → Class)
    (h : ∀ c ∈ cl, (g c).user_key = c.user_key) (ck : String) :
    findClass (cl.map g) ck = (findClass cl ck).map g :=
  find?_map_comm g _ _ cl fun x hx => by rw [h x hx]

theorem findFacet_map {st : List Facet} (g : Facet → Facet)
    (h : ∀ f ∈ st, (g f).user_key = f.user_key) (fk : String) :
    findFacet (st.map g) fk = (findFacet st fk).map g :=
  find?_map_comm g _ _ st fun x hx => by rw [h x hx]

theorem findClass_append_some {cl1 cl2 : List Class} {ck : String} {c : Class}
    (h : findClass cl1 ck = some c) :
    findClass (cl1 ++ cl2) ck = some c := by
  rw [findClass, List.find?_append]
  rw [findClass] at h
  rw [h]
  rfl

theorem findClass_append_none {cl1 cl2 : List Class} {ck : String}
    (h : findClass cl1 ck = none) :
    findClass (cl1 ++ cl2) ck = findClass cl2 ck := by
  rw [findClass, List.find?_append]
  rw [findClass] at h
  rw [h]
  rfl

theorem class_uuid_inj {cl : List Class} (h : (cl.map Class.uuid).Nodup)
    {c1 c2 : Class} (h1 : c1 ∈ cl) (h2 : c2 ∈ cl) (he : c1.uuid = c2.uuid) : c1 = c2 :=
  List.inj_on_of_nodup_map h h1 h2 he

theorem facet_uuid_inj {st : List Facet} (h : (st.map Facet.uuid).Nodup)
    {f1 f2 : Facet} (h1 : f1 ∈ st) (h2 : f2 ∈ st) (he : f1.uuid = f2.uuid) : f1 = f2 :=
  List.inj_on_of_nodup_map h h1 h2 he

theorem resolveMuts_append (gen : Nat → String) (a b : List Mutation) (k : Nat) :
    resolveMuts gen (a ++ b) k =
      ((resolveMuts gen a k).1 ++ (resolveMuts gen b (resolveMuts gen a k).2).1,
        (resolveMuts gen b (resolveMuts gen a k).2).2) := by
  induction a generalizing k with
  | nil => rfl
  | cons m a ih =>
    cases m with
    | update fu u uk n s => simp [resolveMuts, ih]
    | create fu uk n s => simp [resolveMuts, ih]

theorem resolveMuts_facetUuids (gen : Nat → String) (ms : List Mutation) (k : Nat) :
    (resolveMuts gen ms k).1.map RMut.facetUuid = ms.map Mutation.facetUuid := by
  induction ms generalizing k with
  | nil => rfl
  | cons m ms ih =>
    cases m with
    | update fu u uk n s => simp [resolveMuts, RMut.facetUuid, Mutation.facetUuid, ih]
    | create fu uk n s => simp [resolveMuts, RMut.facetUuid, Mutation.facetUuid, ih]

theorem resolveMuts_counter_le (gen : Nat → String) (ms : List Mutation) (k : Nat) :
    k ≤ (resolveMuts gen ms k).2 := by
  induction ms generalizing k with
  | nil => exact le_refl k
  | cons m ms ih =>
    cases m with
    | update fu u uk n s => exact ih k
    | create fu uk n s => exact le_trans (Nat.le_succ k) (ih (k + 1))

theorem cblock_counter_le (cl0 : List Class) (gen : Nat → String) (cfg : ConfigFacet)
    (k : Nat) : k ≤ (cblock cl0 gen cfg k).2 := by
  induction cfg generalizing k with
  | nil => exact le_refl k
  | cons p rest ih =>
    obtain ⟨ck, cc⟩ := p
    cases h : findClass cl0 ck with
    | some c => simpa [cblock, h] using ih k
    | none => simpa [cblock, h] using le_trans (Nat.le_succ k) (ih (k + 1))

theorem resolveMuts_ensureFacet (gen : Nat → String) (f : Facet) (cfg : ConfigFacet)
    (k : Nat) :
    resolveMuts gen (ensureFacet f cfg) k =
      ((cblock f.classes gen cfg k).1.map (CMut.toRMut f.uuid),
        (cblock f.classes gen cfg k).2) := by
  induction cfg generalizing k with
  | nil => rfl
  | cons p rest ih =>
    obtain ⟨ck, cc⟩ := p
    have ihk : ∀ j,
        resolveMuts gen
            (List.map
              (fun p =>
                match findClass f.classes p.1 with
                | some c => Mutation.update f.uuid c.uuid p.1 p.2.title p.2.scope
                | none => Mutation.create f.uuid p.1 p.2.title p.2.scope)
              rest) j =
          (List.map (CMut.toRMut f.uuid) (cblock f.classes gen rest j).1,
            (cblock f.classes gen rest j).2) := by
      intro j
      have := ih j
      rwa [ensureFacet] at this
    cases h : findClass f.classes ck with
    | some c => simp [ensureFacet, cblock, h, resolveMuts, CMut.toRMut, ihk]
    | none => simp [ensureFacet, cblock, h, resolveMuts, CMut.toRMut, ihk]

theorem projectAt_append (a b : List RMut) (fu : String) :
    projectAt (a ++ b) fu = projectAt a fu ++ projectAt b fu := by
  simp [projectAt, List.filter_append]

theorem toRMut_toCMut (fu : String) (m : CMut) : (CMut.toRMut fu m).toCMut = m := by
  cases m <;> rfl

theorem toRMut_facetUuid (fu : String) (m : CMut) : (CMut.toRMut fu m).facetUuid = fu := by
  cases m <;> rfl

theorem projectAt_toRMut_self (cms : List CMut) (fu : String) :
    projectAt (cms.map (CMut.toRMut fu)) fu = cms := by
  induction cms with
  | nil => rfl
  | cons m cms ih =>
    rw [projectAt] at ih ⊢
    rw [List.map_cons, List.filter_cons, if_pos (by simp [toRMut_facetUuid])]
    rw [List.map_cons, ih, toRMut_toCMut]

theorem projectAt_toRMut_ne (cms : List CMut) {fu fu' : String} (h : fu ≠ fu') :
    projectAt (cms.map (CMut.toRMut fu)) fu' = [] := by
  induction cms with
  | nil => rfl
  | cons m cms ih =>
    rw [projectAt] at ih ⊢
    rw [List.map_cons, List.filter_cons, if_neg (by simp [toRMut_facetUuid, h])]
    exact ih

theorem applyCMuts_cons (cl : List Class) (m : CMut) (ms : List CMut) :
    applyCMuts cl (m :: ms) = applyCMuts (applyCMut cl m) ms := rfl

theorem projectAt_cons_self {m : RMut} {ms : List RMut} {fu : String}
    (h : (m.facetUuid == fu) = true) :
    projectAt (m :: ms) fu = m.toCMut :: projectAt ms fu := by
  rw [projectAt, projectAt, List.filter_cons, if_pos h, List.map_cons]

theorem projectAt_cons_ne {m : RMut} {ms : List RMut} {fu : String}
    (h : (m.facetUuid == fu) = false) :
    projectAt (m :: ms) fu = projectAt ms fu := by
  rw [projectAt, projectAt, List.filter_cons, if_neg (by simp [h])]

theorem applyRMuts_decomp (st : List Facet) (ms : List RMut) :
    applyRMuts st ms =
      st.map fun f => { f with classes := applyCMuts f.classes (projectAt ms f.uuid) } := by
  induction ms generalizing st with
  | nil => exact (List.map_id st).symm
  | cons m ms ih =>
    show applyRMuts (applyRMut st m) ms = _
    rw [ih, applyRMut, List.map_map]
    apply List.map_congr_left
    intro f _
    simp only [Function.comp_apply]
    by_cases h : f.uuid = m.facetUuid
    · have hb : (f.uuid == m.facetUuid) = true := by simpa using h
      have hb' : (m.facetUuid == f.uuid) = true := by simpa using h.symm
      rw [if_pos hb, projectAt_cons_self hb', applyCMuts_cons]
    · have hb : ¬((f.uuid == m.facetUuid) = true) := by simpa using h
      have hb' : (m.facetUuid == f.uuid) = false := by
        simpa using fun e => h e.symm
      rw [if_neg hb, projectAt_cons_ne hb']

theorem applyUpds_cons (rs : List (String × String × ConfigClass))
    (r : String × String × ConfigClass) (c : Class) :
    applyUpds (r :: rs) c = applyUpds rs (applyUpd1 c r) := rfl

theorem applyUpd1_uuid (c : Class) (r : String × String × ConfigClass) :
    (applyUpd1 c r).uuid = c.uuid := by
  rw [applyUpd1]
  by_cases h : (c.uuid == r.1) = true
  · rw [if_pos h]
    exact (eq_of_beq h).symm
  · rw [if_neg h]

theorem applyUpds_uuid (rs : List (String × String × ConfigClass)) (c : Class) :
    (applyUpds rs c).uuid = c.uuid := by
  induction rs generalizing c with
  | nil => rfl
  | cons r rs ih => rw [applyUpds_cons, ih, applyUpd1_uuid]

theorem applyUpds_not_target {rs : List (String × String × ConfigClass)} {c : Class}
    (h : ∀ r ∈ rs, r.1 ≠ c.uuid) : applyUpds rs c = c := by
  induction rs with
  | nil => rfl
  | cons r rs ih =>
    rw [applyUpds_cons, applyUpd1,
      if_neg (by simpa using fun e : c.uuid = r.1 => h r (List.mem_cons_self r rs) e.symm)]
    exact ih fun r' hr' => h r' (List.mem_cons_of_mem _ hr')

theorem applyUpd1_shape {c : Class} {r : String × String × ConfigClass}
    (h : r.1 = c.uuid → r.2.1 = c.user_key) :
    (applyUpd1 c r).uuid = c.uuid ∧ (applyUpd1 c r).user_key = c.user_key := by
  rw [applyUpd1]
  by_cases hb : (c.uuid == r.1) = true
  · rw [if_pos hb]
    exact ⟨(eq_of_beq hb).symm, h (eq_of_beq hb).symm⟩
  · rw [if_neg hb]
    exact ⟨rfl, rfl⟩

theorem applyUpds_key {rs : List (String × String × ConfigClass)} {c : Class}
    (h : ∀ r ∈ rs, r.1 = c.uuid → r.2.1 = c.user_key) :
    (applyUpds rs c).user_key = c.user_key := by
  induction rs generalizing c with
  | nil => rfl
  | cons r rs ih =>
    rw [applyUpds_cons]
    have step := applyUpd1_shape (h r (List.mem_cons_self r rs))
    have ih' := ih (c := applyUpd1 c r) fun r' hr' he => by
      rw [step.2]
      exact h r' (List.mem_cons_of_mem _ hr') (by rw [← step.1]; exact he)
    rw [ih', step.2]

theorem applyUpds_target {rs : List (String × String × ConfigClass)}
    {u ck : String} {cc : ConfigClass} {c : Class} (hcu : c.uuid = u)
    (hmem : (u, ck, cc) ∈ rs)
    (huniq : ∀ r ∈ rs, r.1 = u → r = (u, ck, cc)) :
    applyUpds rs c = ⟨u, ck, cc.title, cc.scope⟩ := by
  induction rs generalizing c with
  | nil => exact absurd hmem (List.not_mem_nil _)
  | cons r rs ih =>
    rw [applyUpds_cons]
    by_cases hb : (c.uuid == r.1) = true
    · have hru : r.1 = u := by rw [← eq_of_beq hb, hcu]
      have hr : r = (u, ck, cc) := huniq r (List.mem_cons_self r rs) hru
      have happ : applyUpd1 c r = ⟨u, ck, cc.title, cc.scope⟩ := by
        rw [applyUpd1, if_pos hb, hr]
      rw [happ]
      by_cases hmem' : (u, ck, cc) ∈ rs
      · exact ih rfl hmem' fun r' h' e => huniq r' (List.mem_cons_of_mem _ h') e
      · apply applyUpds_not_target
        intro r' hr' e
        exact hmem' (huniq r' (List.mem_cons_of_mem _ hr') e ▸ hr')
    · have happ : applyUpd1 c r = c := by rw [applyUpd1, if_neg hb]
      rw [happ]
      have hmem' : (u, ck, cc) ∈ rs := by
        rcases List.mem_cons.mp hmem with h | h
        · exfalso
          apply hb
          rw [hcu, ← h]
          exact beq_self_eq_true u
        · exact h
      exact ih hcu hmem' fun r' h' e => huniq r' (List.mem_cons_of_mem _ h') e

theorem rewrites_cons_some {cl0 : List Class} {ck : String} {cc : ConfigClass}
    {rest : ConfigFacet} {c : Class} (h : findClass cl0 ck = some c) :
    rewrites cl0 ((ck, cc) :: rest) = (c.uuid, ck, cc) :: rewrites cl0 rest := by
  rw [rewrites, rewrites, List.filterMap_cons]
  simp [h]

theorem rewrites_cons_none {cl0 : List Class} {ck : String} {cc : ConfigClass}
    {rest : ConfigFacet} (h : findClass cl0 ck = none) :
    rewrites cl0 ((ck, cc) :: rest) = rewrites cl0 rest := by
  rw [rewrites, rewrites, List.filterMap_cons]
  simp [h]

theorem rewrites_mem {cl0 : List Class} {cfg : ConfigFacet}
    {r : String × String × ConfigClass} (h : r ∈ rewrites cl0 cfg) :
    ∃ c, c ∈ cl0 ∧ r.1 = c.uuid ∧ c.user_key = r.2.1 ∧
      findClass cl0 r.2.1 = some c ∧ (r.2.1, r.2.2) ∈ cfg := by
  rw [rewrites, List.mem_filterMap] at h
  obtain ⟨p, hp, he⟩ := h
  cases hc : findClass cl0 p.1 with
  | none => rw [hc] at he; cases he
  | some c =>
    rw [hc] at he
    have he' : (c.uuid, p.1, p.2) = r := by simpa using he
    refine ⟨c, findClass_mem hc, ?_, ?_, ?_, ?_⟩
    · rw [← he']
    · rw [← he']
      exact findClass_key hc
    · rw [← he']
      exact hc
    · rw [← he']
      simpa using hp

theorem rewrites_target_mem {cl0 : List Class} {cfg : ConfigFacet}
    {r : String × String × ConfigClass} (h : r ∈ rewrites cl0 cfg) :
    r.1 ∈ cl0.map Class.uuid := by
  obtain ⟨c, hc, he, _, _, _⟩ := rewrites_mem h
  rw [he]
  exact List.mem_map_of_mem Class.uuid hc

theorem applyCMuts_cblock_char (cl0 : List Class) (gen : Nat → String)
    (cfg : ConfigFacet) (k : Nat) (curr : List Class)
    (hfresh : ∀ j, k ≤ j → gen j ∉ cl0.map Class.uuid) :
    applyCMuts curr (cblock cl0 gen cfg k).1 =
      curr.map (applyUpds (rewrites cl0 cfg)) ++ creations cl0 gen cfg k := by
  induction cfg generalizing k curr with
  | nil =>
    show curr = curr.map (applyUpds []) ++ []
    rw [List.append_nil]
    exact (List.map_id curr).symm
  | cons p rest ih =>
    obtain ⟨ck, cc⟩ := p
    cases hc : findClass cl0 ck with
    | some c =>
      have hblock : (cblock cl0 gen ((ck, cc) :: rest) k).1 =
          CMut.upd c.uuid ck cc.title cc.scope :: (cblock cl0 gen rest k).1 := by
        simp [cblock, hc]
      have hcre : creations cl0 gen ((ck, cc) :: rest) k = creations cl0 gen rest k := by
        simp [creations, hc]
      rw [hblock, applyCMuts_cons, ih k _ hfresh, rewrites_cons_some hc, hcre]
      congr 1
      show (curr.map fun c' => applyUpd1 c' (c.uuid, ck, cc)).map
          (applyUpds (rewrites cl0 rest)) = _
      rw [List.map_map]
      rfl
    | none =>
      have hblock : (cblock cl0 gen ((ck, cc) :: rest) k).1 =
          CMut.cre (gen k) ck cc.title cc.scope :: (cblock cl0 gen rest (k + 1)).1 := by
        simp [cblock, hc]
      have hcre : creations cl0 gen ((ck, cc) :: rest) k =
          ⟨gen k, ck, cc.title, cc.scope⟩ :: creations cl0 gen rest (k + 1) := by
        simp [creations, hc]
      have hfresh' : ∀ j, k + 1 ≤ j → gen j ∉ cl0.map Class.uuid :=
        fun j hj => hfresh j (le_trans (Nat.le_succ k) hj)
      rw [hblock, applyCMuts_cons]
      show applyCMuts (curr ++ [⟨gen k, ck, cc.title, cc.scope⟩])
          (cblock cl0 gen rest (k + 1)).1 = _
      rw [ih (k + 1) _ hfresh', List.map_append, rewrites_cons_none hc, hcre]
      have hnew : applyUpds (rewrites cl0 rest) ⟨gen k, ck, cc.title, cc.scope⟩ =
          ⟨gen k, ck, cc.title, cc.scope⟩ := by
        apply applyUpds_not_target
        intro r hr e
        have e' : r.1 = gen k := e
        exact hfresh k (le_refl k) (e' ▸ rewrites_target_mem hr)
      rw [List.map_cons, List.map_nil, hnew, List.append_assoc]
      rfl

theorem findClass_cons_eq (u uk n s : String) (cl : List Class) (ck : String)
    (h : (uk == ck) = true) :
    findClass (⟨u, uk, n, s⟩ :: cl) ck = some ⟨u, uk, n, s⟩ := by
  simp [findClass, List.find?_cons, h]

theorem findClass_cons_ne (u uk n s : String) (cl : List Class) (ck : String)
    (h : (uk == ck) = false) :
    findClass (⟨u, uk, n, s⟩ :: cl) ck = findClass cl ck := by
  simp [findClass, List.find?_cons, h]

theorem cfg_nodup_eq {cfg : ConfigFacet} (h : (cfg.map Prod.fst).Nodup)
    {ck : String} {cc1 cc2 : ConfigClass}
    (h1 : (ck, cc1) ∈ cfg) (h2 : (ck, cc2) ∈ cfg) : cc1 = cc2 := by
  induction cfg with
  | nil => cases h1
  | cons p rest ih =>
    rw [List.map_cons, List.nodup_cons] at h
    rcases List.mem_cons.mp h1 with e1 | m1
    · rcases List.mem_cons.mp h2 with e2 | m2
      · exact congrArg Prod.snd (e1.trans e2.symm)
      · exfalso
        have hm : ck ∈ List.map Prod.fst rest := List.mem_map_of_mem Prod.fst m2
        apply h.1
        rw [← e1]
        exact hm
    · rcases List.mem_cons.mp h2 with e2 | m2
      · exfalso
        have hm : ck ∈ List.map Prod.fst rest := List.mem_map_of_mem Prod.fst m1
        apply h.1
        rw [← e2]
        exact hm
      · exact ih h.2 m1 m2

theorem rewrites_uniq {cl0 : List Class} {cfg : ConfigFacet}
    (hU : (cl0.map Class.uuid).Nodup) (hk : (cfg.map Prod.fst).Nodup)
    {c : Class} {ck : String} {cc : ConfigClass}
    (hcfg : (ck, cc) ∈ cfg) (hfind : findClass cl0 ck = some c) :
    ∀ r ∈ rewrites cl0 cfg, r.1 = c.uuid → r = (c.uuid, ck, cc) := by
  intro r hr he
  obtain ⟨c2, hc2mem, he2, hkey2, hfind2, hcfg2⟩ := rewrites_mem hr
  have hc2c : c2 = c := class_uuid_inj hU hc2mem (findClass_mem hfind) (by rw [← he2, he])
  have hk2 : r.2.1 = ck := by
    rw [← hkey2, hc2c]
    exact findClass_key hfind
  have hv : r.2.2 = cc := cfg_nodup_eq hk (by rw [← hk2]; exact hcfg2) hcfg
  calc r = (r.1, r.2.1, r.2.2) := rfl
    _ = (c.uuid, ck, cc) := by rw [he, hk2, hv]

theorem rewrites_self_mem {cl0 : List Class} {cfg : ConfigFacet}
    {c : Class} {ck : String} {cc : ConfigClass}
    (hcfg : (ck, cc) ∈ cfg) (hfind : findClass cl0 ck = some c) :
    (c.uuid, ck, cc) ∈ rewrites cl0 cfg := by
  rw [rewrites, List.mem_filterMap]
  exact ⟨(ck, cc), hcfg, by rw [hfind]; rfl⟩

theorem applyUpds_rewrites_key {cl0 : List Class} {cfg : ConfigFacet}
    (hU : (cl0.map Class.uuid).Nodup) :
    ∀ x ∈ cl0, (applyUpds (rewrites cl0 cfg) x).user_key = x.user_key := by
  intro x hx
  apply applyUpds_key
  intro r hr he
  obtain ⟨c2, hc2, he2, hkey2, _, _⟩ := rewrites_mem hr
  have hcx : c2 = x := class_uuid_inj hU hc2 hx (by rw [← he2, he])
  rw [← hkey2, hcx]

theorem cl1_found_class {cl0 : List Class} {gen : Nat → String} {cfg : ConfigFacet}
    {k : Nat} (hU : (cl0.map Class.uuid).Nodup) (hk : (cfg.map Prod.fst).Nodup)
    (hfresh : ∀ j, k ≤ j → gen j ∉ cl0.map Class.uuid)
    {ck : String} {cc : ConfigClass} {c : Class}
    (hcfg : (ck, cc) ∈ cfg) (hfind : findClass cl0 ck = some c) :
    findClass (applyCMuts cl0 (cblock cl0 gen cfg k).1) ck =
      some ⟨c.uuid, ck, cc.title, cc.scope⟩ := by
  rw [applyCMuts_cblock_char cl0 gen cfg k cl0 hfresh]
  have hmap := findClass_map (applyUpds (rewrites cl0 cfg)) (applyUpds_rewrites_key hU) ck
  have hsome : findClass (cl0.map (applyUpds (rewrites cl0 cfg))) ck =
      some (applyUpds (rewrites cl0 cfg) c) := by
    rw [hmap, hfind]
    rfl
  have hval : applyUpds (rewrites cl0 cfg) c = ⟨c.uuid, ck, cc.title, cc.scope⟩ :=
    applyUpds_target rfl (rewrites_self_mem hcfg hfind) (rewrites_uniq hU hk hcfg hfind)
  rw [findClass_append_some hsome, hval]

theorem creations_found {cl0 : List Class} (gen : Nat → String) :
    ∀ (cfg : ConfigFacet) (k : Nat) {ck : String} {cc : ConfigClass},
      (cfg.map Prod.fst).Nodup → (ck, cc) ∈ cfg → findClass cl0 ck = none →
      ∃ j, k ≤ j ∧ findClass (creations cl0 gen cfg k) ck =
        some ⟨gen j, ck, cc.title, cc.scope⟩ := by
  intro cfg
  induction cfg with
  | nil =>
    intro k ck cc _ h
    cases h
  | cons p rest ih =>
    intro k ck cc hnodup hmem hnone
    obtain ⟨ck0, cc0⟩ := p
    rw [List.map_cons, List.nodup_cons] at hnodup
    cases hc0 : findClass cl0 ck0 with
    | some c0 =>
      have hcre : creations cl0 gen ((ck0, cc0) :: rest) k = creations cl0 gen rest k := by
        simp [creations, hc0]
      rw [hcre]
      have hmem' : (ck, cc) ∈ rest := by
        rcases List.mem_cons.mp hmem with e | m
        · exfalso
          rw [show ck = ck0 from congrArg Prod.fst e, hc0] at hnone
          cases hnone
        · exact m
      exact ih k hnodup.2 hmem' hnone
    | none =>
      have hcre : creations cl0 gen ((ck0, cc0) :: rest) k =
          ⟨gen k, ck0, cc0.title, cc0.scope⟩ :: creations cl0 gen rest (k + 1) := by
        simp [creations, hc0]
      rw [hcre]
      rcases List.mem_cons.mp hmem with e | m
      · have e1 : ck = ck0 := congrArg Prod.fst e
        have e2 : cc = cc0 := congrArg Prod.snd e
        refine ⟨k, le_refl k, ?_⟩
        rw [e1, e2]
        exact findClass_cons_eq (gen k) ck0 cc0.title cc0.scope _ ck0 (beq_self_eq_true ck0)
      · have hne : (ck0 == ck) = false := by
          have hm : ck ∈ List.map Prod.fst rest := List.mem_map_of_mem Prod.fst m
          simpa using fun e : ck0 = ck => hnodup.1 (e ▸ hm)
        obtain ⟨j, hj, hfound⟩ := ih (k + 1) hnodup.2 m hnone
        refine ⟨j, le_trans (Nat.le_succ k) hj, ?_⟩
        rw [findClass_cons_ne (gen k) ck0 cc0.title cc0.scope _ ck hne]
        exact hfound

theorem cl1_created_class {cl0 : List Class} {gen : Nat → String} {cfg : ConfigFacet}
    {k : Nat} (hU : (cl0.map Class.uuid).Nodup) (hk : (cfg.map Prod.fst).Nodup)
    (hfresh : ∀ j, k ≤ j → gen j ∉ cl0.map Class.uuid)
    {ck : String} {cc : ConfigClass}
    (hcfg : (ck, cc) ∈ cfg) (hnone : findClass cl0 ck = none) :
    ∃ j, k ≤ j ∧ findClass (applyCMuts cl0 (cblock cl0 gen cfg k).1) ck =
      some ⟨gen j, ck, cc.title, cc.scope⟩ := by
  rw [applyCMuts_cblock_char cl0 gen cfg k cl0 hfresh]
  have hmap := findClass_map (applyUpds (rewrites cl0 cfg)) (applyUpds_rewrites_key hU) ck
  have hnomap : findClass (cl0.map (applyUpds (rewrites cl0 cfg))) ck = none := by
    rw [hmap, hnone]
    rfl
  obtain ⟨j, hj, hfound⟩ := creations_found gen cfg k hk hcfg hnone
  exact ⟨j, hj, by rw [findClass_append_none hnomap]; exact hfound⟩

theorem creations_uuid_range {cl0 : List Class} {gen : Nat → String} :
    ∀ (cfg : ConfigFacet) (k : Nat) {u : String},
      u ∈ (creations cl0 gen cfg k).map Class.uuid → ∃ j, k ≤ j ∧ u = gen j := by
  intro cfg
  induction cfg with
  | nil =>
    intro k u h
    cases h
  | cons p rest ih =>
    intro k u h
    obtain ⟨ck0, cc0⟩ := p
    cases hc0 : findClass cl0 ck0 with
    | some c0 =>
      rw [show creations cl0 gen ((ck0, cc0) :: rest) k = creations cl0 gen rest k from by
        simp [creations, hc0]] at h
      exact ih k h
    | none =>
      rw [show creations cl0 gen ((ck0, cc0) :: rest) k =
          ⟨gen k, ck0, cc0.title, cc0.scope⟩ :: creations cl0 gen rest (k + 1) from by
        simp [creations, hc0], List.map_cons] at h
      rcases List.mem_cons.mp h with e | m
      · exact ⟨k, le_refl k, e⟩
      · obtain ⟨j, hj, he⟩ := ih (k + 1) m
        exact ⟨j, le_trans (Nat.le_succ k) hj, he⟩

theorem creations_uuid_nodup {cl0 : List Class} {gen : Nat → String}
    (hinj : ∀ i j, gen i = gen j → i = j) :
    ∀ (cfg : ConfigFacet) (k : Nat), ((creations cl0 gen cfg k).map Class.uuid).Nodup := by
  intro cfg
  induction cfg with
  | nil =>
    intro k
    exact List.nodup_nil
  | cons p rest ih =>
    intro k
    obtain ⟨ck0, cc0⟩ := p
    cases hc0 : findClass cl0 ck0 with
    | some c0 =>
      rw [show creations cl0 gen ((ck0, cc0) :: rest) k = creations cl0 gen rest k from by
        simp [creations, hc0]]
      exact ih k
    | none =>
      rw [show creations cl0 gen ((ck0, cc0) :: rest) k =
          ⟨gen k, ck0, cc0.title, cc0.scope⟩ :: creations cl0 gen rest (k + 1) from by
        simp [creations, hc0], List.map_cons, List.nodup_cons]
      refine ⟨?_, ih (k + 1)⟩
      intro hmem
      obtain ⟨j, hj, he⟩ := creations_uuid_range rest (k + 1) hmem
      exact absurd (hinj k j he) (by omega)

theorem cl1_uuids {cl0 : List Class} {gen : Nat → String} {cfg : ConfigFacet} {k : Nat}
    (hfresh : ∀ j, k ≤ j → gen j ∉ cl0.map Class.uuid) :
    (applyCMuts cl0 (cblock cl0 gen cfg k).1).map Class.uuid =
      cl0.map Class.uuid ++ (creations cl0 gen cfg k).map Class.uuid := by
  rw [applyCMuts_cblock_char cl0 gen cfg k cl0 hfresh, List.map_append, List.map_map]
  congr 1
  apply List.map_congr_left
  intro x _
  exact applyUpds_uuid (rewrites cl0 cfg) x

theorem cl1_uuid_nodup {cl0 : List Class} {gen : Nat → String} {cfg : ConfigFacet}
    {k : Nat} (hU : (cl0.map Class.uuid).Nodup)
    (hfresh : ∀ j, k ≤ j → gen j ∉ cl0.map Class.uuid)
    (hinj : ∀ i j, gen i = gen j → i = j) :
    ((applyCMuts cl0 (cblock cl0 gen cfg k).1).map Class.uuid).Nodup := by
  rw [cl1_uuids hfresh, List.nodup_append]
  refine ⟨hU, creations_uuid_nodup hinj cfg k, ?_⟩
  intro u hu hu'
  obtain ⟨j, hj, he⟩ := creations_uuid_range cfg k hu'
  exact hfresh j hj (he ▸ hu)

theorem cl1_untouched {cl0 : List Class} {gen : Nat → String} {cfg : ConfigFacet}
    {k : Nat} (hU : (cl0.map Class.uuid).Nodup)
    (hfresh : ∀ j, k ≤ j → gen j ∉ cl0.map Class.uuid)
    {c : Class} (hc : c ∈ cl0) (habs : ∀ cc, (c.user_key, cc) ∉ cfg) :
    c ∈ applyCMuts cl0 (cblock cl0 gen cfg k).1 := by
  rw [applyCMuts_cblock_char cl0 gen cfg k cl0 hfresh]
  apply List.mem_append_left
  have hid : applyUpds (rewrites cl0 cfg) c = c := by
    apply applyUpds_not_target
    intro r hr e
    obtain ⟨c2, hc2, he2, hkey2, hfind2, hcfg2⟩ := rewrites_mem hr
    have hcx : c2 = c := class_uuid_inj hU hc2 hc (by rw [← he2, e])
    apply habs r.2.2
    rw [show c.user_key = r.2.1 from by rw [← hcx, hkey2]]
    exact hcfg2
  rw [← hid]
  exact List.mem_map_of_mem _ hc

theorem cblock_all_found {cl : List Class} (gen : Nat → String)
    (hU : (cl.map Class.uuid).Nodup) :
    ∀ (cfg : ConfigFacet) (k : Nat),
      (∀ p ∈ cfg, ∃ u, findClass cl p.1 = some ⟨u, p.1, p.2.title, p.2.scope⟩) →
      (cblock cl gen cfg k).2 = k ∧
      (∀ m ∈ (cblock cl gen cfg k).1, ∃ u uk n s, m = CMut.upd u uk n s) ∧
      applyCMuts cl (cblock cl gen cfg k).1 = cl := by
  intro cfg
  induction cfg with
  | nil =>
    intro k _
    exact ⟨rfl, fun m hm => absurd hm (List.not_mem_nil m), rfl⟩
  | cons p rest ih =>
    intro k hdone
    obtain ⟨ck, cc⟩ := p
    obtain ⟨u, hfind⟩ := hdone (ck, cc) (List.mem_cons_self _ _)
    have hblock : cblock cl gen ((ck, cc) :: rest) k =
        (CMut.upd u ck cc.title cc.scope :: (cblock cl gen rest k).1,
          (cblock cl gen rest k).2) := by
      simp [cblock, hfind]
    have happly : applyCMut cl (CMut.upd u ck cc.title cc.scope) = cl := by
      have hpt : ∀ x ∈ cl,
          (if x.uuid == u then (⟨u, ck, cc.title, cc.scope⟩ : Class) else x) = x := by
        intro x hx
        by_cases hb : (x.uuid == u) = true
        · rw [if_pos hb]
          exact (class_uuid_inj hU hx (findClass_mem hfind) (eq_of_beq hb)).symm
        · rw [if_neg hb]
      calc cl.map (fun x => if x.uuid == u then (⟨u, ck, cc.title, cc.scope⟩ : Class) else x)
          = cl.map id := List.map_congr_left hpt
        _ = cl := List.map_id cl
    obtain ⟨ihc, ihm, iha⟩ := ih k fun q hq => hdone q (List.mem_cons_of_mem _ hq)
    refine ⟨by rw [hblock]; exact ihc, ?_, ?_⟩
    · intro m hm
      rw [hblock] at hm
      rcases List.mem_cons.mp hm with e | m'
      · exact ⟨u, ck, cc.title, cc.scope, e⟩
      · exact ihm m m'
    · rw [hblock]
      show applyCMuts (applyCMut cl (CMut.upd u ck cc.title cc.scope))
        (cblock cl gen rest k).1 = cl
      rw [happly]
      exact iha

theorem ensure_success_found {st : List Facet} {d : Config}
    (h : (ensure_classes st d).2 = none) :
    ∀ p ∈ d, ∃ f, findFacet st p.1 = some f := by
  induction d with
  | nil =>
    intro p hp
    cases hp
  | cons q rest ih =>
    obtain ⟨fk, cfg⟩ := q
    cases hf : findFacet st fk with
    | none =>
      exfalso
      simp only [ensure_classes, hf] at h
      cases h
    | some f =>
      intro p hp
      have hrest : (ensure_classes st rest).2 = none := by
        simp only [ensure_classes, hf] at h
        exact h
      rcases List.mem_cons.mp hp with e | m
      · refine ⟨f, ?_⟩
        rw [show p.1 = fk from congrArg Prod.fst e]
        exact hf
      · exact ih hrest p m

theorem ensure_cons_found {st : List Facet} {fk : String} {cfg : ConfigFacet}
    {rest : Config} {f : Facet} (hf : findFacet st fk = some f) :
    ensure_classes st ((fk, cfg) :: rest) =
      (ensureFacet f cfg ++ (ensure_classes st rest).1, (ensure_classes st rest).2) := by
  simp [ensure_classes, hf]

theorem ensureFacet_facetUuid {f : Facet} {cfg : ConfigFacet} :
    ∀ m ∈ ensureFacet f cfg, m.facetUuid = f.uuid := by
  intro m hm
  rw [ensureFacet] at hm
  obtain ⟨p, hp, he⟩ := List.mem_map.mp hm
  cases hc : findClass f.classes p.1 with
  | some c =>
    rw [hc] at he
    rw [← he]
    rfl
  | none =>
    rw [hc] at he
    rw [← he]
    rfl

theorem ensure_targets {st : List Facet} {d : Config} :
    ∀ m ∈ (ensure_classes st d).1, ∃ p f, p ∈ d ∧ findFacet st p.1 = some f ∧
      m.facetUuid = f.uuid := by
  induction d with
  | nil =>
    intro m hm
    cases hm
  | cons q rest ih =>
    obtain ⟨fk, cfg⟩ := q
    intro m hm
    cases hf : findFacet st fk with
    | none =>
      simp only [ensure_classes, hf] at hm
      cases hm
    | some f =>
      rw [ensure_cons_found hf] at hm
      rcases List.mem_append.mp hm with h1 | h2
      · exact ⟨(fk, cfg), f, List.mem_cons_self _ _, hf, ensureFacet_facetUuid m h1⟩
      · obtain ⟨p, f', hp, hf', he⟩ := ih m h2
        exact ⟨p, f', List.mem_cons_of_mem _ hp, hf', he⟩

theorem found_ne_uuid {st : List Facet} (hU : (st.map Facet.uuid).Nodup)
    {fk1 fk2 : String} {f1 f2 : Facet}
    (h1 : findFacet st fk1 = some f1) (h2 : findFacet st fk2 = some f2)
    (hne : fk1 ≠ fk2) : f1.uuid ≠ f2.uuid := by
  intro he
  have hf : f1 = f2 := facet_uuid_inj hU (findFacet_mem h1) (findFacet_mem h2) he
  apply hne
  rw [← findFacet_key h1, ← findFacet_key h2, hf]

theorem projectAt_eq_nil {ms : List RMut} {fu : String}
    (h : ∀ m ∈ ms, (m.facetUuid == fu) = false) : projectAt ms fu = [] := by
  rw [projectAt, List.filter_eq_nil_iff.mpr (by intro a ha; simp [h a ha])]
  rfl

theorem resolved_target_found {st : List Facet} {gen : Nat → String} {d : Config}
    {k : Nat} :
    ∀ rm ∈ (resolveMuts gen (ensure_classes st d).1 k).1,
      ∃ p f, p ∈ d ∧ findFacet st p.1 = some f ∧ rm.facetUuid = f.uuid := by
  intro rm hrm
  have h1 : rm.facetUuid ∈
      (resolveMuts gen (ensure_classes st d).1 k).1.map RMut.facetUuid :=
    List.mem_map_of_mem _ hrm
  rw [resolveMuts_facetUuids] at h1
  obtain ⟨m, hm, he⟩ := List.mem_map.mp h1
  obtain ⟨p, f, hp, hf, he2⟩ := ensure_targets m hm
  exact ⟨p, f, hp, hf, by rw [← he, he2]⟩

theorem applyRMuts_append (st : List Facet) (a b : List RMut) :
    applyRMuts st (a ++ b) = applyRMuts (applyRMuts st a) b :=
  List.foldl_append _ _ _ _

theorem classUuid_sub {st : List Facet} {f : Facet} (hf : f ∈ st) {u : String}
    (hu : u ∈ f.classes.map Class.uuid) : u ∈ allClassUuids st := by
  rw [allClassUuids, List.mem_flatten]
  exact ⟨f.classes.map Class.uuid, List.mem_map_of_mem _ hf, hu⟩

theorem resolveMuts_append_fst (gen : Nat → String) (a b : List Mutation) (k : Nat) :
    (resolveMuts gen (a ++ b) k).1 =
      (resolveMuts gen a k).1 ++ (resolveMuts gen b (resolveMuts gen a k).2).1 := by
  rw [resolveMuts_append]

theorem resolveMuts_append_snd (gen : Nat → String) (a b : List Mutation) (k : Nat) :
    (resolveMuts gen (a ++ b) k).2 = (resolveMuts gen b (resolveMuts gen a k).2).2 := by
  rw [resolveMuts_append]

theorem ensure_projectAt {st : List Facet} (gen : Nat → String)
    (hU : (st.map Facet.uuid).Nodup) :
    ∀ (d : Config) (k : Nat), (ensure_classes st d).2 = none → (d.map Prod.fst).Nodup →
      ∀ {fk : String} {cfg : ConfigFacet} {f : Facet},
        (fk, cfg) ∈ d → findFacet st fk = some f →
        ∃ kf, k ≤ kf ∧
          projectAt (resolveMuts gen (ensure_classes st d).1 k).1 f.uuid =
            (cblock f.classes gen cfg kf).1 := by
  intro d
  induction d with
  | nil =>
    intro k _ _ fk cfg f hmem
    cases hmem
  | cons q rest ih =>
    obtain ⟨fk0, cfg0⟩ := q
    intro k hok hnd fk cfg f hmem hf
    cases hf0 : findFacet st fk0 with
    | none =>
      exfalso
      simp only [ensure_classes, hf0] at hok
      cases hok
    | some f0 =>
      rw [List.map_cons, List.nodup_cons] at hnd
      have hok' : (ensure_classes st rest).2 = none := by
        rw [ensure_cons_found hf0] at hok
        exact hok
      have hms : (ensure_classes st ((fk0, cfg0) :: rest)).1 =
          ensureFacet f0 cfg0 ++ (ensure_classes st rest).1 := by
        rw [ensure_cons_found hf0]
      have hres := resolveMuts_ensureFacet gen f0 cfg0 k
      have hres1 : (resolveMuts gen (ensureFacet f0 cfg0) k).1 =
          (cblock f0.classes gen cfg0 k).1.map (CMut.toRMut f0.uuid) := by
        rw [hres]
      have hres2 : (resolveMuts gen (ensureFacet f0 cfg0) k).2 =
          (cblock f0.classes gen cfg0 k).2 := by
        rw [hres]
      rw [hms, resolveMuts_append_fst, projectAt_append]
      rcases List.mem_cons.mp hmem with e | m
      · have e1 : fk = fk0 := congrArg Prod.fst e
        have e2 : cfg = cfg0 := congrArg Prod.snd e
        have hff : f0 = f := by
          rw [e1, hf0] at hf
          exact Option.some_inj.mp hf
        refine ⟨k, le_refl k, ?_⟩
        have hnil : projectAt (resolveMuts gen (ensure_classes st rest).1
            (resolveMuts gen (ensureFacet f cfg0) k).2).1 f.uuid = [] := by
          apply projectAt_eq_nil
          intro rm hrm
          obtain ⟨p, f', hp, hf', he'⟩ := resolved_target_found rm hrm
          have hm : p.1 ∈ List.map Prod.fst rest := List.mem_map_of_mem Prod.fst hp
          have hpne : p.1 ≠ fk0 := fun hpe => hnd.1 (hpe ▸ hm)
          have hne : f'.uuid ≠ f.uuid := found_ne_uuid hU hf' (hff ▸ hf0) hpne
          simpa [he'] using hne
        rw [hres1, hff, projectAt_toRMut_self, hnil, List.append_nil, e2]
      · have hm : fk ∈ List.map Prod.fst rest := List.mem_map_of_mem Prod.fst m
        have hpne : fk ≠ fk0 := fun hpe => hnd.1 (hpe ▸ hm)
        obtain ⟨kf, hkf, hproj⟩ :=
          ih ((resolveMuts gen (ensureFacet f0 cfg0) k).2) hok' hnd.2 m hf
        refine ⟨kf, ?_, ?_⟩
        · refine le_trans ?_ hkf
          rw [hres2]
          exact cblock_counter_le _ _ _ _
        · have hnilA : projectAt
              ((cblock f0.classes gen cfg0 k).1.map (CMut.toRMut f0.uuid)) f.uuid = [] :=
            projectAt_toRMut_ne _ (found_ne_uuid hU hf0 hf fun hpe => hpne hpe.symm)
          rw [hres1, hnilA, List.nil_append]
          exact hproj

theorem applyRMuts_uuids (st : List Facet) (rms : List RMut) :
    (applyRMuts st rms).map Facet.uuid = st.map Facet.uuid := by
  rw [applyRMuts_decomp, List.map_map]
  rfl

theorem findFacet_applyRMuts (st : List Facet) (rms : List RMut) (fk : String) :
    findFacet (applyRMuts st rms) fk =
      (findFacet st fk).map fun f =>
        { f with classes := applyCMuts f.classes (projectAt rms f.uuid) } := by
  rw [applyRMuts_decomp]
  exact findFacet_map
    (fun f => { f with classes := applyCMuts f.classes (projectAt rms f.uuid) })
    (fun f _ => rfl) fk

theorem findFacet_applyRMuts_some {st : List Facet} {rms : List RMut} {fk : String}
    {f : Facet} (hf : findFacet st fk = some f) :
    findFacet (applyRMuts st rms) fk =
      some { f with classes := applyCMuts f.classes (projectAt rms f.uuid) } := by
  rw [findFacet_applyRMuts, hf]
  rfl

theorem ensure_done {st : List Facet} {gen : Nat → String} {d : Config} {k : Nat}
    (hU : (st.map Facet.uuid).Nodup)
    (hC : ∀ f ∈ st, (f.classes.map Class.uuid).Nodup)
    (hdk : (d.map Prod.fst).Nodup)
    (hck : ∀ p ∈ d, (p.2.map Prod.fst).Nodup)
    (hfresh : ∀ j, k ≤ j → gen j ∉ allClassUuids st)
    (hinj : ∀ i j, gen i = gen j → i = j)
    (hok : (ensure_classes st d).2 = none) :
    ((applyRMuts st (resolveMuts gen (ensure_classes st d).1 k).1).map Facet.uuid).Nodup ∧
    ∀ p ∈ d, ∃ f1,
      findFacet (applyRMuts st (resolveMuts gen (ensure_classes st d).1 k).1) p.1 =
        some f1 ∧
      (f1.classes.map Class.uuid).Nodup ∧
      ∀ q ∈ p.2, ∃ u, findClass f1.classes q.1 =
        some ⟨u, q.1, q.2.title, q.2.scope⟩ := by
  constructor
  · rw [applyRMuts_uuids]
    exact hU
  · intro p hp
    obtain ⟨fk, cfg⟩ := p
    obtain ⟨f, hf⟩ := ensure_success_found hok (fk, cfg) hp
    obtain ⟨kf, hkf, hproj⟩ := ensure_projectAt gen hU d k hok hdk hp hf
    have hfind1 : findFacet (applyRMuts st (resolveMuts gen (ensure_classes st d).1 k).1) fk =
        some { f with
          classes := applyCMuts f.classes (cblock f.classes gen cfg kf).1 } := by
      rw [findFacet_applyRMuts_some hf, hproj]
    have hfmem : f ∈ st := findFacet_mem hf
    have hffresh : ∀ j, kf ≤ j → gen j ∉ f.classes.map Class.uuid :=
      fun j hj hmem => hfresh j (le_trans hkf hj) (classUuid_sub hfmem hmem)
    refine ⟨_, hfind1, ?_, ?_⟩
    · exact cl1_uuid_nodup (hC f hfmem) hffresh hinj
    · intro q hq
      obtain ⟨ck, cc⟩ := q
      cases hfc : findClass f.classes ck with
      | some c =>
        exact ⟨c.uuid, cl1_found_class (hC f hfmem) (hck (fk, cfg) hp) hffresh hq hfc⟩
      | none =>
        obtain ⟨j, hj, hfound⟩ :=
          cl1_created_class (hC f hfmem) (hck (fk, cfg) hp) hffresh hq hfc
        exact ⟨gen j, hfound⟩

theorem ensureFacet_all_update {f : Facet} {cfg : ConfigFacet}
    (h : ∀ q ∈ cfg, ∃ c, findClass f.classes q.1 = some c) :
    ∀ m ∈ ensureFacet f cfg, m.isUpdate = true := by
  intro m hm
  rw [ensureFacet] at hm
  obtain ⟨p, hp, he⟩ := List.mem_map.mp hm
  obtain ⟨c, hc⟩ := h p hp
  rw [hc] at he
  rw [← he]
  rfl

theorem applyRMuts_block_id {st1 : List Facet} {f1 : Facet} {cms : List CMut}
    (hU1 : (st1.map Facet.uuid).Nodup) (hf1 : f1 ∈ st1)
    (happ : applyCMuts f1.classes cms = f1.classes) :
    applyRMuts st1 (cms.map (CMut.toRMut f1.uuid)) = st1 := by
  rw [applyRMuts_decomp]
  have hpt : ∀ g ∈ st1,
      ({ g with classes := (applyCMuts g.classes
          (projectAt (cms.map (CMut.toRMut f1.uuid)) g.uuid)) } : Facet) = g := by
    intro g hg
    by_cases he : f1.uuid = g.uuid
    · have hgf : g = f1 := facet_uuid_inj hU1 hg hf1 he.symm
      subst hgf
      rw [projectAt_toRMut_self, happ]
    · rw [projectAt_toRMut_ne _ he]
      rfl
  calc st1.map (fun g => { g with classes := (applyCMuts g.classes
        (projectAt (cms.map (CMut.toRMut f1.uuid)) g.uuid)) })
      = st1.map id := List.map_congr_left hpt
    _ = st1 := List.map_id st1

theorem ensure_second {st1 : List Facet} (gen : Nat → String)
    (hU1 : (st1.map Facet.uuid).Nodup) :
    ∀ (d : Config) (k1 : Nat),
      (∀ p ∈ d, ∃ f1, findFacet st1 p.1 = some f1 ∧
        (f1.classes.map Class.uuid).Nodup ∧
        ∀ q ∈ p.2, ∃ u, findClass f1.classes q.1 =
          some ⟨u, q.1, q.2.title, q.2.scope⟩) →
      (ensure_classes st1 d).2 = none ∧
      (∀ m ∈ (ensure_classes st1 d).1, m.isUpdate = true) ∧
      (resolveMuts gen (ensure_classes st1 d).1 k1).2 = k1 ∧
      applyRMuts st1 (resolveMuts gen (ensure_classes st1 d).1 k1).1 = st1 := by
  intro d
  induction d with
  | nil =>
    intro k1 _
    exact ⟨rfl, fun m hm => absurd hm (List.not_mem_nil m), rfl, rfl⟩
  | cons p rest ih =>
    intro k1 hdone
    obtain ⟨fk, cfg⟩ := p
    obtain ⟨f1, hf1, hnd1, hfinds⟩ := hdone (fk, cfg) (List.mem_cons_self _ _)
    have hfinds' : ∀ q ∈ cfg, ∃ u, findClass f1.classes q.1 =
        some ⟨u, q.1, q.2.title, q.2.scope⟩ := hfinds
    obtain ⟨hcnt, hupds, happ⟩ := cblock_all_found gen hnd1 cfg k1 hfinds'
    have hms := @ensure_cons_found st1 fk cfg rest f1 hf1
    have hms1 : (ensure_classes st1 ((fk, cfg) :: rest)).1 =
        ensureFacet f1 cfg ++ (ensure_classes st1 rest).1 := by
      rw [hms]
    have hms2 : (ensure_classes st1 ((fk, cfg) :: rest)).2 =
        (ensure_classes st1 rest).2 := by
      rw [hms]
    have hres := resolveMuts_ensureFacet gen f1 cfg k1
    have hres1 : (resolveMuts gen (ensureFacet f1 cfg) k1).1 =
        (cblock f1.classes gen cfg k1).1.map (CMut.toRMut f1.uuid) := by
      rw [hres]
    have hres2 : (resolveMuts gen (ensureFacet f1 cfg) k1).2 = k1 := by
      rw [hres]
      exact hcnt
    obtain ⟨ih1, ih2, ih3, ih4⟩ := ih k1 fun p hp => hdone p (List.mem_cons_of_mem _ hp)
    refine ⟨?_, ?_, ?_, ?_⟩
    · rw [hms2]
      exact ih1
    · intro m hm
      rw [hms1] at hm
      rcases List.mem_append.mp hm with h1 | h2
      · exact ensureFacet_all_update
          (fun q hq => (hfinds' q hq).elim fun u hu => ⟨_, hu⟩) m h1
      · exact ih2 m h2
    · rw [hms1, resolveMuts_append_snd, hres2, ih3]
    · rw [hms1, resolveMuts_append_fst, applyRMuts_append, hres1, hres2,
        applyRMuts_block_id hU1 (findFacet_mem hf1) happ]
      exact ih4

theorem ensureFacet_forall₂ {st : List Facet} {fk : String} {f : Facet}
    (hf : findFacet st fk = some f) (cfg : ConfigFacet) :
    List.Forall₂ (mutationSpec st) (cfg.map fun q => (fk, q.1, q.2))
      (ensureFacet f cfg) := by
  rw [ensureFacet, List.forall₂_map_right_iff, List.forall₂_map_left_iff,
    List.forall₂_same]
  intro q hq
  refine ⟨f, hf, ?_⟩
  cases hc : findClass f.classes q.1 with
  | some c =>
    left
    exact ⟨c, rfl, rfl⟩
  | none =>
    right
    exact ⟨rfl, rfl⟩

theorem desiredPairs_cons (fk : String) (cfg : ConfigFacet) (rest : Config) :
    desiredPairs ((fk, cfg) :: rest) =
      (cfg.map fun q => (fk, q.1, q.2)) ++ desiredPairs rest := by
  rw [desiredPairs, desiredPairs, List.map_cons, List.flatten_cons]

theorem ensure_forall₂ {st : List Facet} {d : Config}
    (hok : (ensure_classes st d).2 = none) :
    List.Forall₂ (mutationSpec st) (desiredPairs d) (ensure_classes st d).1 := by
  induction d with
  | nil => exact List.Forall₂.nil
  | cons q rest ih =>
    obtain ⟨fk, cfg⟩ := q
    cases hf : findFacet st fk with
    | none =>
      exfalso
      simp only [ensure_classes, hf] at hok
      cases hok
    | some f =>
      have hok' : (ensure_classes st rest).2 = none := by
        rw [ensure_cons_found hf] at hok
        exact hok
      have hms1 : (ensure_classes st ((fk, cfg) :: rest)).1 =
          ensureFacet f cfg ++ (ensure_classes st rest).1 := by
        rw [ensure_cons_found hf]
      rw [hms1, desiredPairs_cons]
      exact List.rel_append (ensureFacet_forall₂ hf cfg) (ih hok')

theorem desiredFor_of_nodup {d : Config} (hdk : (d.map Prod.fst).Nodup)
    {fk : String} {cfg : ConfigFacet} (hmem : (fk, cfg) ∈ d) :
    desiredFor d fk = some cfg := by
  induction d with
  | nil => cases hmem
  | cons q rest ih =>
    obtain ⟨fk0, cfg0⟩ := q
    rw [List.map_cons, List.nodup_cons] at hdk
    rcases List.mem_cons.mp hmem with e | m
    · have e1 : fk = fk0 := congrArg Prod.fst e
      have e2 : cfg = cfg0 := congrArg Prod.snd e
      simp [desiredFor, List.find?_cons, e1, e2]
    · have hne : (fk0 == fk) = false := by
        have hm : fk ∈ List.map Prod.fst rest := List.mem_map_of_mem Prod.fst m
        simpa using fun e : fk0 = fk => hdk.1 (e ▸ hm)
      have hrest := ih hdk.2 m
      rw [desiredFor] at hrest ⊢
      simpa [List.find?_cons, hne] using hrest

theorem cfgFor_none {cfg : ConfigFacet} {ck : String} (h : cfgFor cfg ck = none) :
    ∀ cc, (ck, cc) ∉ cfg := by
  intro cc hmem
  rw [cfgFor] at h
  have hfind : (cfg.find? fun p => p.1 == ck) = none := by
    cases hf : cfg.find? fun p => p.1 == ck with
    | none => rfl
    | some q =>
      rw [hf] at h
      cases h
  rw [List.find?_eq_none] at hfind
  exact hfind (ck, cc) hmem (by simp)

end Classes

/-- Claim C5: get_root_org returns the root organisation's uuid on success,
returns the absence value when the query fails with first error code
E_ORG_UNCONFIGURED, and lets any failure with another error code propagate
unchanged. -/
theorem get_root_org_spec (u : String) (e : TransportQueryError)
    (g : GraphQLError) (gs : List GraphQLError) :
    get_root_org (Except.ok u) = PyResult.ok (some u) ∧
    (e.errors = g :: gs → g.message = "ErrorCodes.E_ORG_UNCONFIGURED" →
      get_root_org (Except.error e) = PyResult.ok none) ∧
    (e.errors = g :: gs → g.message ≠ "ErrorCodes.E_ORG_UNCONFIGURED" →
      get_root_org (Except.error e) = PyResult.raised e) := by
  refine ⟨rfl, ?_, ?_⟩
  · intro herr hmsg
    simp only [get_root_org, herr, hmsg]
    rfl
  · intro herr hmsg
    simp only [get_root_org, herr]
    rw [if_neg]
    simpa using hmsg

/-- Witness for claim C5 at concrete inputs. -/
theorem get_root_org_spec_witness :
    get_root_org (Except.ok "456362c4-0ee4-4e5e-a72c-751239745e62") =
      PyResult.ok (some "456362c4-0ee4-4e5e-a72c-751239745e62") ∧
    get_root_org (Except.error ⟨[⟨"ErrorCodes.E_ORG_UNCONFIGURED"⟩]⟩) = PyResult.ok none ∧
    get_root_org (Except.error ⟨[⟨"ErrorCodes.E_INVALID_INPUT"⟩]⟩) =
      PyResult.raised ⟨[⟨"ErrorCodes.E_INVALID_INPUT"⟩]⟩ :=
  ⟨(get_root_org_spec "456362c4-0ee4-4e5e-a72c-751239745e62" ⟨[]⟩ ⟨""⟩ []).1,
   (get_root_org_spec "" ⟨[⟨"ErrorCodes.E_ORG_UNCONFIGURED"⟩]⟩
      ⟨"ErrorCodes.E_ORG_UNCONFIGURED"⟩ []).2.1 rfl rfl,
   (get_root_org_spec "" ⟨[⟨"ErrorCodes.E_INVALID_INPUT"⟩]⟩
      ⟨"ErrorCodes.E_INVALID_INPUT"⟩ []).2.2 rfl (by decide)⟩

/-- Claim C9: get_root_org inspects only the first entry of the transport
error's error list: when the unconfigured-root code appears only in a later
entry the error propagates as a generic failure, and when the error list is
empty the handler itself crashes on an out-of-bounds index access instead of
cleanly re-raising. -/
theorem get_root_org_first_entry_only (e : TransportQueryError)
    (g1 g2 : GraphQLError) (gs : List GraphQLError) :
    (e.errors = [] →
      get_root_org (Except.error e) = PyResult.crashed "IndexError: list index out of range") ∧
    (g1.message ≠ "ErrorCodes.E_ORG_UNCONFIGURED" →
      g2.message = "ErrorCodes.E_ORG_UNCONFIGURED" →
      get_root_org (Except.error ⟨g1 :: g2 :: gs⟩) = PyResult.raised ⟨g1 :: g2 :: gs⟩) := by
  constructor
  · intro herr
    simp only [get_root_org, herr]
  · intro h1 _
    simp only [get_root_org]
    rw [if_neg]
    simpa using h1

/-- Witness for claim C9 at concrete inputs. -/
theorem get_root_org_first_entry_only_witness :
    get_root_org (Except.error ⟨[]⟩) =
      PyResult.crashed "IndexError: list index out of range" ∧
    get_root_org (Except.error ⟨[⟨"ErrorCodes.E_UNKNOWN"⟩, ⟨"ErrorCodes.E_ORG_UNCONFIGURED"⟩]⟩) =
      PyResult.raised ⟨[⟨"ErrorCodes.E_UNKNOWN"⟩, ⟨"ErrorCodes.E_ORG_UNCONFIGURED"⟩]⟩ :=
  ⟨(get_root_org_first_entry_only ⟨[]⟩ ⟨""⟩ ⟨""⟩ []).1 rfl,
   (get_root_org_first_entry_only ⟨[]⟩ ⟨"ErrorCodes.E_UNKNOWN"⟩
      ⟨"ErrorCodes.E_ORG_UNCONFIGURED"⟩ []).2 (by decide) rfl⟩

/-- Claim C10: mo.get_classes keeps exactly the input's facet keys, each
mapped to the class mapping built from the classes fetched for that same
facet's uuid: the positional zip of keys against gathered results never
mispairs a facet with another facet's classes. -/
theorem mo_get_classes_pairing (facets : List (String × String))
    (fetch : String → List Mo.ClassItem) :
    Mo.get_classes facets fetch =
      facets.map (fun p => (p.1, (fetch p.2).map fun c => (c.user_key, c.uuid))) ∧
    (Mo.get_classes facets fetch).map Prod.fst = facets.map Prod.fst := by
  have h : Mo.get_classes facets fetch =
      facets.map (fun p => (p.1, (fetch p.2).map fun c => (c.user_key, c.uuid))) := by
    induction facets with
    | nil => rfl
    | cons p ps ih =>
      simpa [Mo.get_classes] using ih
  refine ⟨h, ?_⟩
  rw [h, List.map_map]
  rfl

/-- Claim C1: for every desired configuration entry (facet key, class key)
whose class key exists in the remote index of its facet, ensure_classes
issues an update mutation carrying the existing remote class identifier, the
class key as natural key, and the desired title and scope; the existing
identifier is reused, never regenerated. -/
theorem ensure_classes_updates_existing (st : List Facet) (d : Config)
    (fk : String) (cfg : ConfigFacet) (ck : String) (cc : ConfigClass)
    (f : Facet) (c : Class)
    (hok : (Classes.ensure_classes st d).2 = none)
    (hmem : (fk, cfg) ∈ d)
    (hf : Classes.findFacet st fk = some f)
    (hcm : (ck, cc) ∈ cfg)
    (hc : Classes.findClass f.classes ck = some c) :
    Classes.Mutation.update f.uuid c.uuid ck cc.title cc.scope ∈
      (Classes.ensure_classes st d).1 := by
  induction d with
  | nil => cases hmem
  | cons q rest ih =>
    obtain ⟨fk0, cfg0⟩ := q
    cases hf0 : Classes.findFacet st fk0 with
    | none =>
      exfalso
      simp only [Classes.ensure_classes, hf0] at hok
      cases hok
    | some f0 =>
      have hok' : (Classes.ensure_classes st rest).2 = none := by
        rw [Classes.ensure_cons_found hf0] at hok
        exact hok
      have hms1 : (Classes.ensure_classes st ((fk0, cfg0) :: rest)).1 =
          Classes.ensureFacet f0 cfg0 ++ (Classes.ensure_classes st rest).1 := by
        rw [Classes.ensure_cons_found hf0]
      rw [hms1]
      rcases List.mem_cons.mp hmem with e | m
      · apply List.mem_append_left
        have e1 : fk = fk0 := congrArg Prod.fst e
        have e2 : cfg = cfg0 := congrArg Prod.snd e
        have hff : f0 = f := by
          rw [e1, hf0] at hf
          exact Option.some_inj.mp hf
        rw [Classes.ensureFacet]
        apply List.mem_map.mpr
        refine ⟨(ck, cc), by rw [e2] at hcm; exact hcm, ?_⟩
        rw [hff, hc]
      · exact List.mem_append_right _ (ih hok' m)

/-- Witness for claim C1 at the fixture of tests/test_classes.py: the Ansat
class exists under engagement_type, so the emitted call is an update reusing
its identifier. -/
theorem ensure_classes_updates_existing_witness :
    Classes.Mutation.update "182df2a8-2594-4a3f-9103-a9894d5e0c36"
        "8acc5743-044b-4c82-9bb9-4e572d82b524" "Ansat" "Updated Title" "Updated Scope" ∈
      (Classes.ensure_classes stW dW).1 :=
  ensure_classes_updates_existing stW dW "engagement_type"
    [("Ansat", ⟨"Updated Title", "Updated Scope"⟩)] "Ansat"
    ⟨"Updated Title", "Updated Scope"⟩
    ⟨"182df2a8-2594-4a3f-9103-a9894d5e0c36", "engagement_type",
      [⟨"8acc5743-044b-4c82-9bb9-4e572d82b524", "Ansat", "Ansat", "TEXT"⟩]⟩
    ⟨"8acc5743-044b-4c82-9bb9-4e572d82b524", "Ansat", "Ansat", "TEXT"⟩
    (by decide) (by decide) (by decide) (by decide) (by decide)

/-- Claim C2: for every desired configuration entry (facet key, class key)
whose class key does not exist in the remote index of its facet,
ensure_classes issues a create mutation carrying the owning facet's
identifier, the class key as natural key, and the desired title and scope;
the create payload supplies no class identifier (its constructor carries no
uuid field — the remote assigns one). -/
theorem ensure_classes_creates_missing (st : List Facet) (d : Config)
    (fk : String) (cfg : ConfigFacet) (ck : String) (cc : ConfigClass)
    (f : Facet)
    (hok : (Classes.ensure_classes st d).2 = none)
    (hmem : (fk, cfg) ∈ d)
    (hf : Classes.findFacet st fk = some f)
    (hcm : (ck, cc) ∈ cfg)
    (hc : Classes.findClass f.classes ck = none) :
    Classes.Mutation.create f.uuid ck cc.title cc.scope ∈
      (Classes.ensure_classes st d).1 := by
  induction d with
  | nil => cases hmem
  | cons q rest ih =>
    obtain ⟨fk0, cfg0⟩ := q
    cases hf0 : Classes.findFacet st fk0 with
    | none =>
      exfalso
      simp only [Classes.ensure_classes, hf0] at hok
      cases hok
    | some f0 =>
      have hok' : (Classes.ensure_classes st rest).2 = none := by
        rw [Classes.ensure_cons_found hf0] at hok
        exact hok
      have hms1 : (Classes.ensure_classes st ((fk0, cfg0) :: rest)).1 =
          Classes.ensureFacet f0 cfg0 ++ (Classes.ensure_classes st rest).1 := by
        rw [Classes.ensure_cons_found hf0]
      rw [hms1]
      rcases List.mem_cons.mp hmem with e | m
      · apply List.mem_append_left
        have e1 : fk = fk0 := congrArg Prod.fst e
        have e2 : cfg = cfg0 := congrArg Prod.snd e
        have hff : f0 = f := by
          rw [e1, hf0] at hf
          exact Option.some_inj.mp hf
        rw [Classes.ensureFacet]
        apply List.mem_map.mpr
        refine ⟨(ck, cc), by rw [e2] at hcm; exact hcm, ?_⟩
        rw [hff, hc]
      · exact List.mem_append_right _ (ih hok' m)

/-- Witness for claim C2 at the fixture of tests/test_classes.py: the Intern
class is absent under visibility, so the emitted call is a create under the
visibility facet identifier. -/
theorem ensure_classes_creates_missing_witness :
    Classes.Mutation.create "2cc2dbc5-30dc-4955-8b9a-19fe32b41ce4" "Intern"
        "New Internal Title" "NEW INTERNAL SCOPE" ∈
      (Classes.ensure_classes stW dW).1 :=
  ensure_classes_creates_missing stW dW "visibility"
    [("Intern", ⟨"New Internal Title", "NEW INTERNAL SCOPE"⟩)] "Intern"
    ⟨"New Internal Title", "NEW INTERNAL SCOPE"⟩
    ⟨"2cc2dbc5-30dc-4955-8b9a-19fe32b41ce4", "visibility", []⟩
    (by decide) (by decide) (by decide) (by decide) (by decide)

/-- Claim C3: on a successful run, the mutation calls emitted by
ensure_classes correspond one-to-one, in order, to the (facet key, class
key, desired attributes) triples of the desired configuration in its
iteration order (outer order over facet keys, inner order over class keys),
each call being the update or create determined by the remote index —
regardless of the ordering of the remote state. -/
theorem ensure_classes_order (st : List Facet) (d : Config)
    (hok : (Classes.ensure_classes st d).2 = none) :
    List.Forall₂ (Classes.mutationSpec st) (Classes.desiredPairs d)
      (Classes.ensure_classes st d).1 :=
  Classes.ensure_forall₂ hok

/-- Witness for claim C3 at the fixture of tests/test_classes.py. -/
theorem ensure_classes_order_witness :
    List.Forall₂ (Classes.mutationSpec stW) (Classes.desiredPairs dW)
      (Classes.ensure_classes stW dW).1 :=
  ensure_classes_order stW dW (by decide)

/-- Claim C8: when a desired facet key has no remote counterpart,
ensure_classes signals a fatal configuration error naming the first such
key in iteration order rather than silently skipping it, and the emitted
mutation calls correspond exactly to the desired entries of facets before
that point — in particular no mutation is issued for any class under a
missing facet. -/
theorem ensure_classes_missing_facet (st : List Facet) (d : Config)
    (fk : String) (cfg : ConfigFacet)
    (hmem : (fk, cfg) ∈ d) (hmiss : Classes.findFacet st fk = none) :
    ∃ dpre fk2 cfg2 dsuf,
      d = dpre ++ (fk2, cfg2) :: dsuf ∧
      (∀ p ∈ dpre, ∃ f, Classes.findFacet st p.1 = some f) ∧
      Classes.findFacet st fk2 = none ∧
      (Classes.ensure_classes st d).2 = some ("Facet " ++ fk2 ++ " does not exist") ∧
      List.Forall₂ (Classes.mutationSpec st) (Classes.desiredPairs dpre)
        (Classes.ensure_classes st d).1 := by
  induction d with
  | nil => cases hmem
  | cons q rest ih =>
    obtain ⟨fk0, cfg0⟩ := q
    cases hf0 : Classes.findFacet st fk0 with
    | none =>
      refine ⟨[], fk0, cfg0, rest, rfl,
        fun p hp => absurd hp (List.not_mem_nil p), hf0, ?_, ?_⟩
      · simp [Classes.ensure_classes, hf0]
      · have hnil : (Classes.ensure_classes st ((fk0, cfg0) :: rest)).1 = [] := by
          simp [Classes.ensure_classes, hf0]
        rw [hnil]
        exact List.Forall₂.nil
    | some f0 =>
      have hmem' : (fk, cfg) ∈ rest := by
        rcases List.mem_cons.mp hmem with e | m
        · exfalso
          have e1 : fk = fk0 := congrArg Prod.fst e
          rw [e1, hf0] at hmiss
          cases hmiss
        · exact m
      obtain ⟨dpre, fk2, cfg2, dsuf, hd, hpre, hmiss2, hsnd, hfa⟩ := ih hmem'
      refine ⟨(fk0, cfg0) :: dpre, fk2, cfg2, dsuf, by rw [hd, List.cons_append],
        ?_, hmiss2, ?_, ?_⟩
      · intro p hp
        rcases List.mem_cons.mp hp with e | m
        · refine ⟨f0, ?_⟩
          have e1 : p.1 = fk0 := congrArg Prod.fst e
          rw [e1]
          exact hf0
        · exact hpre p m
      · have hms2 : (Classes.ensure_classes st ((fk0, cfg0) :: rest)).2 =
            (Classes.ensure_classes st rest).2 := by
          rw [Classes.ensure_cons_found hf0]
        rw [hms2]
        exact hsnd
      · have hms1 : (Classes.ensure_classes st ((fk0, cfg0) :: rest)).1 =
            Classes.ensureFacet f0 cfg0 ++ (Classes.ensure_classes st rest).1 := by
          rw [Classes.ensure_cons_found hf0]
        rw [hms1, Classes.desiredPairs_cons]
        exact List.rel_append (Classes.ensureFacet_forall₂ hf0 cfg0) hfa

/-- Witness for claim C8: the desired key org_unit_type has no counterpart
in the remote fixture, so the run aborts with a configuration error after
the mutations of the engagement_type entries before it. -/
theorem ensure_classes_missing_facet_witness :
    ∃ dpre fk2 cfg2 dsuf,
      dMissW = dpre ++ (fk2, cfg2) :: dsuf ∧
      (∀ p ∈ dpre, ∃ f, Classes.findFacet stW p.1 = some f) ∧
      Classes.findFacet stW fk2 = none ∧
      (Classes.ensure_classes stW dMissW).2 =
        some ("Facet " ++ fk2 ++ " does not exist") ∧
      List.Forall₂ (Classes.mutationSpec stW) (Classes.desiredPairs dpre)
        (Classes.ensure_classes stW dMissW).1 :=
  ensure_classes_missing_facet stW dMissW "org_unit_type"
    [("Afdeling", ⟨"Afdeling", "TEXT"⟩)] (by decide) (by decide)

theorem genW_inj : ∀ i j, genW i = genW j → i = j := by
  intro i j h
  have h2 : (List.replicate (i + 1) 'x').length = (List.replicate (j + 1) 'x').length := by
    have h3 := congrArg (fun s => s.data.length) h
    simpa [genW] using h3
  simp only [List.length_replicate] at h2
  omega

theorem stE_fresh : ∀ j, 0 ≤ j → genW j ∉ Classes.allClassUuids stE := by
  intro j _ h
  rw [show Classes.allClassUuids stE = [] from rfl] at h
  exact absurd h (List.not_mem_nil _)

/-- Claim C4: running the reconciler twice with the same desired
configuration yields the same final remote state (and create counter) as
running it once, and the second run issues only update mutations — no
creates and no errors. Stated for well-formed inputs: distinct facet
identifiers, distinct class identifiers per facet, Python-dict desired
configurations (distinct keys), and remote-assigned identifiers fresh and
pairwise distinct. -/
theorem ensure_classes_idempotent (gen : Nat → String) (st : List Facet)
    (d : Config) (k : Nat)
    (hU : (st.map Facet.uuid).Nodup)
    (hC : ∀ f ∈ st, (f.classes.map Class.uuid).Nodup)
    (hdk : (d.map Prod.fst).Nodup)
    (hck : ∀ p ∈ d, (p.2.map Prod.fst).Nodup)
    (hfresh : ∀ j, k ≤ j → gen j ∉ Classes.allClassUuids st)
    (hinj : ∀ i j, gen i = gen j → i = j)
    (hok : (Classes.ensure_classes st d).2 = none) :
    (Classes.ensure_classes (Classes.runState gen st d k).1 d).2 = none ∧
    (∀ m ∈ (Classes.ensure_classes (Classes.runState gen st d k).1 d).1,
      m.isUpdate = true) ∧
    (Classes.runState gen (Classes.runState gen st d k).1 d
        (Classes.runState gen st d k).2).1 = (Classes.runState gen st d k).1 ∧
    (Classes.runState gen (Classes.runState gen st d k).1 d
        (Classes.runState gen st d k).2).2 = (Classes.runState gen st d k).2 := by
  obtain ⟨hU1, hdone⟩ := Classes.ensure_done hU hC hdk hck hfresh hinj hok
  obtain ⟨h1, h2, h3, h4⟩ := Classes.ensure_second gen hU1 d
    (Classes.resolveMuts gen (Classes.ensure_classes st d).1 k).2 hdone
  exact ⟨h1, h2, h4, h3⟩

/-- Witness for claim C4: a remote state with the two facets of the tests
and no classes, the desired configuration of the tests, and a fresh
identifier generator; both desired classes are created on the first run and
the second run only re-updates them, leaving the state unchanged. -/
theorem ensure_classes_idempotent_witness :
    (Classes.ensure_classes (Classes.runState genW stE dW 0).1 dW).2 = none ∧
    (∀ m ∈ (Classes.ensure_classes (Classes.runState genW stE dW 0).1 dW).1,
      m.isUpdate = true) ∧
    (Classes.runState genW (Classes.runState genW stE dW 0).1 dW
        (Classes.runState genW stE dW 0).2).1 = (Classes.runState genW stE dW 0).1 ∧
    (Classes.runState genW (Classes.runState genW stE dW 0).1 dW
        (Classes.runState genW stE dW 0).2).2 = (Classes.runState genW stE dW 0).2 :=
  ensure_classes_idempotent genW stE dW 0 (by decide) (by decide) (by decide)
    (by decide) stE_fresh genW_inj (by decide)

/-- Claim C7: a successful run of ensure_classes issues exactly one remote
write per (facet, class) pair of the desired configuration, and every
remote class whose natural key is absent from the desired configuration for
its facet is still present, unchanged, in its facet after the run. -/
theorem ensure_classes_frame (gen : Nat → String) (st : List Facet)
    (d : Config) (k : Nat)
    (hU : (st.map Facet.uuid).Nodup)
    (hC : ∀ f ∈ st, (f.classes.map Class.uuid).Nodup)
    (hdk : (d.map Prod.fst).Nodup)
    (hfresh : ∀ j, k ≤ j → gen j ∉ Classes.allClassUuids st)
    (hok : (Classes.ensure_classes st d).2 = none) :
    (Classes.ensure_classes st d).1.length = (Classes.desiredPairs d).length ∧
    List.Forall₂
      (fun f f1 => f1.uuid = f.uuid ∧ f1.user_key = f.user_key ∧
        ∀ c ∈ f.classes,
          (∀ cfg, Classes.desiredFor d f.user_key = some cfg →
            Classes.cfgFor cfg c.user_key = none) →
          c ∈ f1.classes)
      st (Classes.runState gen st d k).1 := by
  refine ⟨(Classes.ensure_forall₂ hok).length_eq.symm, ?_⟩
  show List.Forall₂ _ st (Classes.applyRMuts st
    (Classes.resolveMuts gen (Classes.ensure_classes st d).1 k).1)
  rw [Classes.applyRMuts_decomp, List.forall₂_map_right_iff, List.forall₂_same]
  intro f hfmem
  refine ⟨rfl, rfl, ?_⟩
  intro c hc hcond
  by_cases hex : ∃ p, p ∈ d ∧ Classes.findFacet st p.1 = some f
  · obtain ⟨⟨fk, cfg⟩, hp, hfind⟩ := hex
    have hkey : f.user_key = fk := Classes.findFacet_key hfind
    obtain ⟨kf, hkf, hproj⟩ := Classes.ensure_projectAt gen hU d k hok hdk hp hfind
    show c ∈ Classes.applyCMuts f.classes
      (Classes.projectAt (Classes.resolveMuts gen (Classes.ensure_classes st d).1 k).1 f.uuid)
    rw [hproj]
    have hdf : Classes.desiredFor d f.user_key = some cfg := by
      rw [hkey]
      exact Classes.desiredFor_of_nodup hdk hp
    have habs : ∀ cc, (c.user_key, cc) ∉ cfg := Classes.cfgFor_none (hcond cfg hdf)
    have hffresh : ∀ j, kf ≤ j → gen j ∉ f.classes.map Class.uuid :=
      fun j hj hm => hfresh j (le_trans hkf hj)
        (Classes.classUuid_sub (Classes.findFacet_mem hfind) hm)
    exact Classes.cl1_untouched (hC f (Classes.findFacet_mem hfind)) hffresh hc habs
  · have hnil : Classes.projectAt
        (Classes.resolveMuts gen (Classes.ensure_classes st d).1 k).1 f.uuid = [] := by
      apply Classes.projectAt_eq_nil
      intro rm hrm
      obtain ⟨p, f', hp, hf', he'⟩ := Classes.resolved_target_found rm hrm
      have hnef : f' ≠ f := fun hcontra => hex ⟨p, hp, hcontra ▸ hf'⟩
      have hneu : f'.uuid ≠ f.uuid := fun he =>
        hnef (Classes.facet_uuid_inj hU (Classes.findFacet_mem hf') hfmem he)
      simpa [he'] using hneu
    show c ∈ Classes.applyCMuts f.classes
      (Classes.projectAt (Classes.resolveMuts gen (Classes.ensure_classes st d).1 k).1 f.uuid)
    rw [hnil]
    exact hc

/-- Witness for claim C7 at a concrete remote state and the desired
configuration of the tests. -/
theorem ensure_classes_frame_witness :
    (Classes.ensure_classes stE dW).1.length = (Classes.desiredPairs dW).length ∧
    List.Forall₂
      (fun f f1 => f1.uuid = f.uuid ∧ f1.user_key = f.user_key ∧
        ∀ c ∈ f.classes,
          (∀ cfg, Classes.desiredFor dW f.user_key = some cfg →
            Classes.cfgFor cfg c.user_key = none) →
          c ∈ f1.classes)
      stE (Classes.runState genW stE dW 0).1 :=
  ensure_classes_frame genW stE dW 0 (by decide) (by decide) (by decide)
    stE_fresh (by decide)

/-- Claim C6: for every well-formed nested query result, the Fetcher's
get_classes reconstructs exactly the corresponding list of Facet values with
their Class children, preserving the order in which facets and classes are
listed in the result. -/
theorem classes_get_classes_reconstructs (result : List Classes.RawFacetObject) :
    List.Forall₂
      (fun o f => f.uuid = o.current.uuid ∧ f.user_key = o.current.user_key ∧
        List.Forall₂
          (fun rc c => c.uuid = rc.uuid ∧ c.user_key = rc.user_key ∧
            c.name = rc.name ∧ c.scope = rc.scope)
          o.current.classes f.classes)
      result (Classes.get_classes result) := by
  rw [Classes.get_classes, List.forall₂_map_right_iff, List.forall₂_same]
  intro o _
  refine ⟨rfl, rfl, ?_⟩
  rw [List.forall₂_map_right_iff, List.forall₂_same]
  intro c _
  exact ⟨rfl, rfl, rfl, rfl⟩

end OS2moInit
